import Mathlib

/-!
Verification of the ESG factsheet regeneration service
(`apps/api`: `pptx_utils.py`, `main.py`, `ai_service.py`).

The development shallowly embeds the Python source:

* the Markdown rendering engine (`insert_markdown_into_ai_summary`,
  `_apply_inline_formatting`) operates on the token stream the external
  `markdown_it` parser produces; tokens and inline children are modelled
  as inductive types mirroring the markdown-it token vocabulary;
* the python-pptx paragraph/run text model is modelled as plain records;
  `TextFrame.clear()` is modelled per its documented behaviour: all
  paragraphs are removed except the first, which keeps its paragraph-level
  properties but loses its runs; `add_paragraph` / `add_run` append;
* the pipeline endpoints of `main.py` are modelled as pure state
  transformers on a record of the Supabase tables and the blob store;
  uuid generation is modelled by a fresh-id counter (ids are `Nat`);
  remote calls whose outcome is not determined by the state (the Gemini
  generation call, the markdown parse) are passed in as parameters;
* the Gemini file-upload polling loop of `upload_pdf_to_gemini` is
  modelled with an environment `Nat → FileState` giving the remote
  state reported by each successive status poll.
-/

namespace Factsheet

/-! ## Inline tokens and runs (`_apply_inline_formatting`) -/

/-- Inline children of a markdown-it `inline` token, restricted to the
kinds the source inspects (`pptx_utils.py` lines 304-337). -/
inductive Inline where
  | text (s : String)
  | strongOpen
  | strongClose
  | emOpen
  | emClose
  | codeInline (s : String)
  | linkOpen
  | linkClose
  | softbreak
  | hardbreak
deriving DecidableEq, Repr

/-- A python-pptx run: a contiguous styled span of text.  `bold`/`italic`
are `true` exactly when the source sets `run.font.bold`/`run.font.italic`;
`fontName`/`size` are `some` exactly when the source sets them. -/
structure TextRun where
  text : String
  bold : Bool := false
  italic : Bool := false
  fontName : Option String := none
  size : Option Nat := none
deriving DecidableEq, Repr

/-- The child-scanning loop of `_apply_inline_formatting`
(`pptx_utils.py` lines 296-339): two independent boolean flags set by
`strong_open`/`strong_close` and `em_open`/`em_close`, one run emitted
per `text` child (styled by the current flags) and per `code_inline`
child (monospace `Consolas` at 10pt, still honouring the flags); link
delimiters and soft/hard breaks are skipped. -/
def applyAux (bold italic : Bool) : List Inline → List TextRun
  | [] => []
  | .text s :: rest =>
      { text := s, bold := bold, italic := italic } :: applyAux bold italic rest
  | .strongOpen :: rest => applyAux true italic rest
  | .strongClose :: rest => applyAux false italic rest
  | .emOpen :: rest => applyAux bold true rest
  | .emClose :: rest => applyAux bold false rest
  | .codeInline s :: rest =>
      { text := s, bold := bold, italic := italic,
        fontName := some "Consolas", size := some 10 } :: applyAux bold italic rest
  | .linkOpen :: rest => applyAux bold italic rest
  | .linkClose :: rest => applyAux bold italic rest
  | .softbreak :: rest => applyAux bold italic rest
  | .hardbreak :: rest => applyAux bold italic rest

/-- A markdown-it `inline` token: its child tokens and its raw content. -/
structure InlineTok where
  children : List Inline
  content : String
deriving DecidableEq, Repr

/-- `_apply_inline_formatting` (`pptx_utils.py` lines 280-339): when the
inline token has no children a single unstyled run with the raw content
is emitted, otherwise the children are scanned with both flags starting
`False`. -/
def applyInline (tok : InlineTok) : List TextRun :=
  if tok.children.isEmpty then [{ text := tok.content }]
  else applyAux false false tok.children

/-! ## Block tokens and the rendering loop (`insert_markdown_into_ai_summary`) -/

/-- The markdown-it block-level token stream, restricted to the token
types the source's `while` loop inspects (`pptx_utils.py` lines 184-270);
every other token type falls into `other` (the loop skips it). -/
inductive MdToken where
  | headingOpen (level : Nat)
  | headingClose
  | paragraphOpen
  | paragraphClose
  | bulletListOpen
  | bulletListClose
  | orderedListOpen
  | orderedListClose
  | listItemOpen
  | listItemClose
  | inline (tok : InlineTok)
  | other
deriving DecidableEq, Repr

/-- A python-pptx paragraph: paragraph-level font size and bold flag, and
the sequence of runs it contains. -/
structure Paragraph where
  size : Option Nat := none
  bold : Bool := false
  runs : List TextRun := []
deriving DecidableEq, Repr

/-- Heading point size per level (`pptx_utils.py` lines 195-200):
level 1 → 24pt, level 2 → 20pt, anything else → 16pt. -/
def headingSize (level : Nat) : Nat :=
  if level = 1 then 24 else if level = 2 then 20 else 16

/-- The unordered-list marker literal of the source
(`pptx_utils.py` line 253; the file's bytes decode to these characters). -/
def bulletGlyph : String := "â€¢ "

/-- Loop state of the rendering loop: the `in_list` / `is_ordered_list` /
`list_counter` variables and the paragraphs accumulated so far in the
text frame. -/
structure RenderState where
  inList : Bool := false
  isOrderedList : Bool := false
  listCounter : Nat := 0
  paras : List Paragraph := []
deriving DecidableEq, Repr

/-- Heading branch (`pptx_utils.py` lines 188-207): a new paragraph at
the level's size, paragraph-level bold, containing the inline runs. -/
def addHeading (st : RenderState) (level : Nat) (tok : InlineTok) : RenderState :=
  { st with paras := st.paras ++
      [{ size := some (headingSize level), bold := true, runs := applyInline tok }] }

/-- Paragraph branch (`pptx_utils.py` lines 239-264): a new 12pt
paragraph; inside a list the counter is incremented and a marker run
(`"<n>. "` when ordered, the bullet glyph otherwise) is emitted as a
plain run before the inline runs. -/
def addParagraph (st : RenderState) (tok : InlineTok) : RenderState :=
  if st.inList then
    let c := st.listCounter + 1
    let marker : String := if st.isOrderedList then toString c ++ ". " else bulletGlyph
    { st with
      listCounter := c,
      paras := st.paras ++
        [{ size := some 12, runs := { text := marker } :: applyInline tok }] }
  else
    { st with paras := st.paras ++ [{ size := some 12, runs := applyInline tok }] }

/-- The token-scanning loop of `insert_markdown_into_ai_summary`
(`pptx_utils.py` lines 183-270), translated cursor-for-cursor: the
heading branch consumes three tokens (`heading_open`, the inline, and
whatever follows), the paragraph branch consumes two, list open/close
tokens update the list flags, and every other token advances by one. -/
def renderLoop : List MdToken → RenderState → RenderState
  | [], st => st
  | .headingOpen level :: .inline tok :: _ :: rest, st =>
      renderLoop rest (addHeading st level tok)
  | [.headingOpen level, .inline tok], st => addHeading st level tok
  | .headingOpen _ :: rest, st => renderLoop rest st
  | .bulletListOpen :: rest, st =>
      renderLoop rest { st with inList := true, isOrderedList := false, listCounter := 0 }
  | .orderedListOpen :: rest, st =>
      renderLoop rest { st with inList := true, isOrderedList := true, listCounter := 0 }
  | .bulletListClose :: rest, st => renderLoop rest { st with inList := false }
  | .orderedListClose :: rest, st => renderLoop rest { st with inList := false }
  | .listItemOpen :: rest, st => renderLoop rest st
  | .listItemClose :: rest, st => renderLoop rest st
  | .paragraphOpen :: .inline tok :: rest, st =>
      renderLoop rest (addParagraph st tok)
  | .paragraphOpen :: rest, st => renderLoop rest st
  | .paragraphClose :: rest, st => renderLoop rest st
  | .headingClose :: rest, st => renderLoop rest st
  | .inline _ :: rest, st => renderLoop rest st
  | .other :: rest, st => renderLoop rest st

/-! ## Presentation model and the placeholder locator -/

/-- A python-pptx text frame: the list of paragraphs it holds. -/
structure TextFrame where
  paras : List Paragraph
deriving DecidableEq, Repr

/-- A shape: its name, its alt-text description (`element.get("descr", "")`
yields `""` when absent), and its text frame when it is text-capable
(`hasattr(shape, "text_frame")`). -/
structure Shape where
  name : String
  descr : String := ""
  frame : Option TextFrame := none
deriving DecidableEq, Repr

/-- A slide: its shapes in document order. -/
structure Slide where
  shapes : List Shape
deriving DecidableEq, Repr

/-- A presentation: its slides in document order. -/
structure Prs where
  slides : List Slide
deriving DecidableEq, Repr

/-- The per-shape test of `find_ai_summary_shape` (`pptx_utils.py`
lines 59-67): the shape's name, or failing that its alt-text
description, equals `AI_SUMMARY`. -/
def shapeMatches (sh : Shape) : Bool :=
  sh.name = "AI_SUMMARY" || sh.descr = "AI_SUMMARY"

/-- First matching shape within one slide's shape list. -/
def findShapeInShapes : List Shape → Option Shape
  | [] => none
  | sh :: rest => if shapeMatches sh then some sh else findShapeInShapes rest

/-- Slide scan of `find_ai_summary_shape`, carrying the slide index. -/
def findShapeAux : Nat → List Slide → Option (Nat × Shape)
  | _, [] => none
  | idx, sl :: rest =>
      match findShapeInShapes sl.shapes with
      | some sh => some (idx, sh)
      | none => findShapeAux (idx + 1) rest

/-- `find_ai_summary_shape` (`pptx_utils.py` lines 47-69): scan slides in
document order and shapes within a slide in document order, returning
the first shape whose name or description equals `AI_SUMMARY` together
with its slide index, or `none`. -/
def find_ai_summary_shape (prs : Prs) : Option (Nat × Shape) :=
  findShapeAux 0 prs.slides

/-- `TextFrame.clear()` per python-pptx: every paragraph except the
first is removed, and the first keeps its paragraph-level properties but
loses its runs. -/
def clearFrame (tf : TextFrame) : TextFrame :=
  match tf.paras with
  | [] => ⟨[{}]⟩
  | p :: _ => ⟨[{ p with runs := [] }]⟩

/-- Replace the text frame of the first matching shape in a shape list. -/
def replaceInShapes (tf : TextFrame) : List Shape → List Shape
  | [] => []
  | sh :: rest =>
      if shapeMatches sh then { sh with frame := some tf } :: rest
      else sh :: replaceInShapes tf rest

/-- Replace the text frame of the first matching shape in a slide list. -/
def replaceInSlides (tf : TextFrame) : List Slide → List Slide
  | [] => []
  | sl :: rest =>
      match findShapeInShapes sl.shapes with
      | some _ => ⟨replaceInShapes tf sl.shapes⟩ :: rest
      | none => sl :: replaceInSlides tf rest

/-- The two `ValueError` raise sites of `insert_markdown_into_ai_summary`
(`pptx_utils.py` lines 162 and 168), one constructor per distinct
message. -/
inductive RenderError where
  | placeholderNotFound
  | placeholderNotTextCapable
deriving DecidableEq, Repr

/-- The message of each render error, as raised by the source. -/
def RenderError.message : RenderError → String
  | .placeholderNotFound => "AI_SUMMARY shape not found in presentation"
  | .placeholderNotTextCapable => "AI_SUMMARY shape does not support text"

/-- `insert_markdown_into_ai_summary` (`pptx_utils.py` lines 140-277)
applied to an already-parsed token stream: locate the placeholder shape
(failing when absent or not text-capable), clear its frame, run the
rendering loop appending one paragraph per rendered block, and return
the presentation with that shape's frame replaced. -/
def insert_markdown_into_ai_summary (prs : Prs) (tokens : List MdToken) :
    Except RenderError Prs :=
  match find_ai_summary_shape prs with
  | none => .error .placeholderNotFound
  | some (_, sh) =>
      match sh.frame with
      | none => .error .placeholderNotTextCapable
      | some tf =>
          let st := renderLoop tokens { paras := (clearFrame tf).paras }
          .ok ⟨replaceInSlides ⟨st.paras⟩ prs.slides⟩

/-! ## The supported Markdown subset at block level

`markdown_it` itself is an external dependency; the constrained subset
the system guarantees (headings, paragraphs, flat ordered/unordered
lists whose items hold one inline sequence each) is modelled by `Block`,
and `blockTokens` mirrors the token stream markdown-it emits for it. -/

/-- A block-level node of the supported Markdown subset. -/
inductive Block where
  | heading (level : Nat) (tok : InlineTok)
  | para (tok : InlineTok)
  | ulist (items : List InlineTok)
  | olist (items : List InlineTok)
deriving DecidableEq, Repr

/-- Token stream markdown-it emits for one list item of a flat list. -/
def itemTokens (it : InlineTok) : List MdToken :=
  [.listItemOpen, .paragraphOpen, .inline it, .paragraphClose, .listItemClose]

/-- Token stream markdown-it emits for one block of the subset. -/
def blockTokens : Block → List MdToken
  | .heading level tok => [.headingOpen level, .inline tok, .headingClose]
  | .para tok => [.paragraphOpen, .inline tok, .paragraphClose]
  | .ulist items =>
      .bulletListOpen :: (items.flatMap itemTokens ++ [.bulletListClose])
  | .olist items =>
      .orderedListOpen :: (items.flatMap itemTokens ++ [.orderedListClose])

/-- Token stream of a whole document of the subset. -/
def docTokens (bs : List Block) : List MdToken := bs.flatMap blockTokens

/-- Number of block-level nodes: headings plus paragraphs plus list
items. -/
def blockCount : Block → Nat
  | .heading _ _ => 1
  | .para _ => 1
  | .ulist items => items.length
  | .olist items => items.length

/-- Total number of block-level nodes of a document. -/
def docBlockCount (bs : List Block) : Nat := (bs.map blockCount).sum

/-- The paragraph the renderer produces for a heading. -/
def headingPara (level : Nat) (tok : InlineTok) : Paragraph :=
  { size := some (headingSize level), bold := true, runs := applyInline tok }

/-- The paragraph the renderer produces for a plain paragraph block. -/
def plainPara (tok : InlineTok) : Paragraph :=
  { size := some 12, runs := applyInline tok }

/-- The paragraph the renderer produces for an unordered list item. -/
def bulletPara (tok : InlineTok) : Paragraph :=
  { size := some 12, runs := { text := bulletGlyph } :: applyInline tok }

/-- The paragraph the renderer produces for the `n`-th (1-based) item of
an ordered list. -/
def orderedPara (n : Nat) (tok : InlineTok) : Paragraph :=
  { size := some 12, runs := { text := toString n ++ ". " } :: applyInline tok }

/-- The paragraph produced for one list item given the list kind and the
value of `list_counter` after the increment. -/
def itemPara (ordered : Bool) (n : Nat) (tok : InlineTok) : Paragraph :=
  if ordered then orderedPara n tok else bulletPara tok

/-- Paragraphs produced for the items of one list block when the counter
stands at `c` before the first item. -/
def itemParasFrom (ordered : Bool) (c : Nat) : List InlineTok → List Paragraph
  | [] => []
  | it :: tl => itemPara ordered (c + 1) it :: itemParasFrom ordered (c + 1) tl

/-- Paragraphs the renderer produces for one block. -/
def blockParas : Block → List Paragraph
  | .heading level tok => [headingPara level tok]
  | .para tok => [plainPara tok]
  | .ulist items => items.map bulletPara
  | .olist items => itemParasFrom true 0 items

/-- Paragraphs the renderer produces for a whole document. -/
def docParas (bs : List Block) : List Paragraph := bs.flatMap blockParas

/-! ## The Gemini gateway polling loop (`upload_pdf_to_gemini`) -/

/-- The processing state the remote side reports for an uploaded file at
one status poll (`file_status.get("state")` in `ai_service.py`
lines 270-276): `ACTIVE`, `FAILED` with an error detail, or anything
else (still processing). -/
inductive FileState where
  | active
  | failedState (msg : String)
  | processing
deriving DecidableEq, Repr

/-- The two `ValueError` raise sites of the polling section of
`upload_pdf_to_gemini` (`ai_service.py` lines 276 and 281), one
constructor per distinct message. -/
inductive UploadError where
  | processingFailed (msg : String)
  | processingTimeout
deriving DecidableEq, Repr

/-- The sleep duration between poll `i` and poll `i+1`
(`ai_service.py` line 279): `min(2 ** (i // 3), 10)` seconds. -/
def backoffDelay (i : Nat) : Nat := min (2 ^ (i / 3)) 10

/-- The status-polling loop of `upload_pdf_to_gemini` (`ai_service.py`
lines 263-281), starting at poll index `i` with `rem` polls left of the
budget of 20: each poll reads the remote state `env i`; `ACTIVE` returns
(the result records how many polls were made), `FAILED` raises at once,
anything else sleeps `backoffDelay i` and retries; an exhausted budget
raises the timeout error.  The first component collects the sleeps
performed. -/
def pollRun (env : Nat → FileState) : Nat → Nat → List Nat × Except UploadError Nat
  | _, 0 => ([], .error .processingTimeout)
  | i, rem + 1 =>
      match env i with
      | .active => ([], .ok (i + 1))
      | .failedState msg => ([], .error (.processingFailed msg))
      | .processing =>
          let r := pollRun env (i + 1) rem
          (backoffDelay i :: r.1, r.2)

/-- Number of status polls the loop performs, starting at index `i` with
`rem` polls of budget left. -/
def pollsUsed (env : Nat → FileState) : Nat → Nat → Nat
  | _, 0 => 0
  | i, rem + 1 =>
      match env i with
      | .active => 1
      | .failedState _ => 1
      | .processing => 1 + pollsUsed env (i + 1) rem

/-- The whole upload-then-poll protocol's polling phase with the
source's budget `max_retries = 20`. -/
def uploadPoll (env : Nat → FileState) : Except UploadError Nat :=
  (pollRun env 0 20).2

/-! ## The regeneration pipeline (`main.py`)

Supabase tables are modelled as lists of records, the blob store as an
association list from storage path to blob, and `uuid.uuid4()` by a
fresh-id counter (ids are natural numbers). -/

/-- A stored blob: an original/regenerated presentation or an opaque
PDF rendition. -/
inductive Blob where
  | pptxBlob (prs : Prs)
  | pdfBlob (content : String)
deriving DecidableEq, Repr

/-- A `files` row. -/
structure FileRec where
  id : Nat
  companyName : Option String := none
  originalFilename : String := ""
  storagePathOriginal : String := ""
  storagePathPdf : Option String := none
  storagePathRegenerated : Option String := none
deriving DecidableEq, Repr

/-- A `suggestions` row. -/
structure SuggestionRec where
  id : Nat
  fileId : Nat
  modelName : String
  analysisText : String
deriving DecidableEq, Repr

/-- Review status: `DRAFT` or `APPROVED`. -/
inductive ReviewStatus where
  | draft
  | approvedStatus
deriving DecidableEq, Repr

/-- A `reviews` row. -/
structure ReviewRec where
  id : Nat
  fileId : Nat
  suggestionId : Nat
  analysisTextFinal : String
  editorNotes : Option String := none
  status : ReviewStatus := .draft
deriving DecidableEq, Repr

/-- Job kind: `ANALYZE` or `REGENERATE`. -/
inductive JobType where
  | analyzeJob
  | regenerateJob
deriving DecidableEq, Repr

/-- Job status: `RUNNING`, `SUCCEEDED` or `FAILED`. -/
inductive JobStatus where
  | running
  | succeeded
  | failed
deriving DecidableEq, Repr

/-- A `jobs` row. -/
structure JobRec where
  id : Nat
  fileId : Nat
  jobType : JobType
  status : JobStatus
  error : Option String := none
deriving DecidableEq, Repr

/-- The persistent state the API mutates: the four tables, the blob
store, and the fresh-id counter standing for `uuid.uuid4()`. -/
structure DB where
  files : List FileRec := []
  suggestions : List SuggestionRec := []
  reviews : List ReviewRec := []
  jobs : List JobRec := []
  blobs : List (String × Blob) := []
  nextId : Nat := 0
deriving DecidableEq, Repr

/-- Blob-store lookup by storage path. -/
def lookupBlob (bs : List (String × Blob)) (path : String) : Option Blob :=
  match bs.find? fun p => p.1 = path with
  | some p => some p.2
  | none => none

/-- Blob-store upload: the source's `upload_file_to_storage` overwrites
on path collision (delete-and-reupload), so the new pair shadows any
old one. -/
def putBlob (bs : List (String × Blob)) (path : String) (b : Blob) :
    List (String × Blob) :=
  (path, b) :: bs.filter fun p => p.1 ≠ path

/-- `jobs.update({status, error}).eq("id", jobId)`. -/
def setJobFailed (db : DB) (jobId : Nat) (msg : String) : DB :=
  { db with jobs := db.jobs.map fun j =>
      if j.id = jobId then { j with status := .failed, error := some msg } else j }

/-- `jobs.update({status}).eq("id", jobId)` on success. -/
def setJobSucceeded (db : DB) (jobId : Nat) : DB :=
  { db with jobs := db.jobs.map fun j =>
      if j.id = jobId then { j with status := .succeeded } else j }

/-- An error response raised to the boundary layer: an `HTTPException`
with its status code and detail. -/
inductive ApiError where
  | http (status : Nat) (detail : String)
deriving DecidableEq, Repr

/-- Outcome of the external Gemini generation call
(`generate_esg_summary_from_pdf`): a model name and analysis text, or a
failure message. -/
structure AiSummary where
  modelName : String
  analysisText : String
deriving DecidableEq, Repr

/-- `POST /upload` (`main.py` lines 117-222) for one PPTX/PDF pair:
store both blobs and insert the `files` row (original and pdf pointers
set, regenerated pointer absent). -/
def upload_files (db : DB) (companyName : Option String) (filename : String)
    (pptx : Blob) (pdf : Blob) : DB × FileRec :=
  let fid := db.nextId
  let pOrig := "factsheets/original/" ++ toString fid ++ ".pptx"
  let pPdf := "factsheets/pdf/" ++ toString fid ++ ".pdf"
  let f : FileRec :=
    { id := fid, companyName := companyName, originalFilename := filename,
      storagePathOriginal := pOrig, storagePathPdf := some pPdf }
  ({ db with
      files := db.files ++ [f],
      blobs := putBlob (putBlob db.blobs pOrig pptx) pPdf pdf,
      nextId := db.nextId + 1 }, f)

/-- Failure tail of `analyze_file`'s `try` block (`main.py`
lines 292-299): any exception marks the attempt's job `FAILED` with the
captured message and re-raises as a 500. -/
def analyzeFail (db : DB) (jobId : Nat) (msg : String) : DB × Except ApiError SuggestionRec :=
  (setJobFailed db jobId msg, .error (.http 500 ("Analysis failed: " ++ msg)))

/-- The `RUNNING` job row inserted before an operation's `try` block. -/
def newJobRow (db : DB) (fileId : Nat) (kind : JobType) : JobRec :=
  { id := db.nextId, fileId := fileId, jobType := kind, status := .running }

/-- Insert a freshly created job row. -/
def withNewJob (db : DB) (j : JobRec) : DB :=
  { db with jobs := db.jobs ++ [j], nextId := db.nextId + 1 }

/-- The `try` block of `analyze_file` (`main.py` lines 252-299), entered
after the `RUNNING` job `jobId` was inserted: look up the file (404 when
absent), require the PDF pointer (400 when absent), download the PDF,
call Gemini (outcome passed in as `ai`), insert the suggestion and mark
the job `SUCCEEDED`; every failure marks the job `FAILED` before
re-raising as a 500. -/
def analyzeBody (db1 : DB) (jobId fileId : Nat) (ai : Except String AiSummary) :
    DB × Except ApiError SuggestionRec :=
  match db1.files.find? fun f => f.id = fileId with
  | none => analyzeFail db1 jobId "404: File not found"
  | some f =>
      match f.storagePathPdf with
      | none => analyzeFail db1 jobId
          "400: No PDF file uploaded for this factsheet. Please upload both PPTX and PDF files."
      | some pdfPath =>
          match lookupBlob db1.blobs pdfPath with
          | none => analyzeFail db1 jobId "storage download failed"
          | some _ =>
              match ai with
              | .error msg => analyzeFail db1 jobId
                  ("Failed to generate ESG summary from PDF: " ++ msg)
              | .ok s =>
                  let sug : SuggestionRec :=
                    { id := db1.nextId, fileId := fileId,
                      modelName := s.modelName, analysisText := s.analysisText }
                  let db2 : DB :=
                    { db1 with suggestions := db1.suggestions ++ [sug],
                               nextId := db1.nextId + 1 }
                  (setJobSucceeded db2 jobId, .ok sug)

/-- `POST /analyze/{file_id}` (`main.py` lines 226-299): insert a
`RUNNING` job, then run the `try` block. -/
def analyze_file (db : DB) (fileId : Nat) (ai : Except String AiSummary) :
    DB × Except ApiError SuggestionRec :=
  analyzeBody (withNewJob db (newJobRow db fileId .analyzeJob)) db.nextId fileId ai

/-- `POST /review/{file_id}` request body. -/
structure ReviewRequest where
  suggestionId : Nat
  analysisTextFinal : String
  editorNotes : Option String := none
deriving DecidableEq, Repr

/-- `POST /review/{file_id}` (`main.py` lines 303-335): select the
existing review for the file; when one exists, update that row in place
by its id (status written `DRAFT` unconditionally), otherwise insert a
fresh row with status `DRAFT`. -/
def save_review (db : DB) (fileId : Nat) (req : ReviewRequest) : DB × ReviewRec :=
  match db.reviews.find? fun r => r.fileId = fileId with
  | some existing =>
      let updated : ReviewRec :=
        { id := existing.id, fileId := fileId, suggestionId := req.suggestionId,
          analysisTextFinal := req.analysisTextFinal,
          editorNotes := req.editorNotes, status := .draft }
      ({ db with reviews := db.reviews.map fun r =>
            if r.id = existing.id then updated else r }, updated)
  | none =>
      let created : ReviewRec :=
        { id := db.nextId, fileId := fileId, suggestionId := req.suggestionId,
          analysisTextFinal := req.analysisTextFinal,
          editorNotes := req.editorNotes, status := .draft }
      ({ db with reviews := db.reviews ++ [created], nextId := db.nextId + 1 },
       created)

/-- Failure tail of `approve_and_regenerate`'s generic handler
(`main.py` lines 421-428): mark the job `FAILED` and re-raise as a
500. -/
def approveFail (db : DB) (jobId : Nat) (msg : String) : DB × Except ApiError FileRec :=
  (setJobFailed db jobId msg, .error (.http 500 ("Regeneration failed: " ++ msg)))

/-- The re-select of the updated file row returned on success
(`main.py` lines 416-417): `updated_file.data[0] if updated_file.data
else file_record`. -/
def reselectFile (db : DB) (fileId : Nat) (fallback : FileRec) : FileRec :=
  match db.files.find? fun f => f.id = fileId with
  | some updated => updated
  | none => fallback

/-- The `try` block of `approve_and_regenerate` (`main.py`
lines 364-428), entered after the `RUNNING` job `jobId` was inserted:
look up the file and its review — both missing-row cases
raise `HTTPException(404)` which the `except HTTPException: raise`
clause passes through without touching the job; download the original,
render the review's final text (parsed by the external markdown parser
`parse`) into the placeholder — a render `ValueError` marks the job
`FAILED` and raises a 400; then store the regenerated blob, overwrite
the file's regenerated pointer, flip the review to `APPROVED`, mark the
job `SUCCEEDED` and return the re-selected file row; any other failure
hits the generic handler, marking the job `FAILED` before a 500. -/
def approveBody (db1 : DB) (jobId fileId : Nat) (parse : String → List MdToken) :
    DB × Except ApiError FileRec :=
  match db1.files.find? fun f => f.id = fileId with
  | none => (db1, .error (.http 404 "File not found"))
  | some fileRec =>
      match db1.reviews.find? fun r => r.fileId = fileId with
      | none => (db1, .error (.http 404 "No review found for this file"))
      | some review =>
          match lookupBlob db1.blobs fileRec.storagePathOriginal with
          | none => approveFail db1 jobId "storage download failed"
          | some (.pdfBlob _) => approveFail db1 jobId "not a presentation"
          | some (.pptxBlob prs) =>
              match insert_markdown_into_ai_summary prs (parse review.analysisTextFinal) with
              | .error e =>
                  (setJobFailed db1 jobId e.message, .error (.http 400 e.message))
              | .ok newPrs =>
                  let path := "factsheets/regenerated/" ++ toString fileId ++ ".pptx"
                  let db2 : DB := { db1 with blobs := putBlob db1.blobs path (.pptxBlob newPrs) }
                  let db3 : DB :=
                    { db2 with files := db2.files.map fun f =>
                        if f.id = fileId
                        then { f with storagePathRegenerated := some path } else f }
                  let db4 : DB :=
                    { db3 with reviews := db3.reviews.map fun r =>
                        if r.id = review.id then { r with status := .approvedStatus } else r }
                  let db5 := setJobSucceeded db4 jobId
                  (db5, .ok (reselectFile db5 fileId fileRec))

/-- `POST /approve/{file_id}` (`main.py` lines 339-428): insert a
`RUNNING` job, then run the `try` block. -/
def approve_and_regenerate (db : DB) (fileId : Nat) (parse : String → List MdToken) :
    DB × Except ApiError FileRec :=
  approveBody (withNewJob db (newJobRow db fileId .regenerateJob)) db.nextId fileId parse

/-! ## Rendering lemmas -/

/-- One list item consumes its five tokens and appends one marker-led
paragraph, incrementing the counter. -/
theorem renderLoop_item (it : InlineTok) (rest : List MdToken) (st : RenderState)
    (h : st.inList = true) :
    renderLoop (itemTokens it ++ rest) st =
      renderLoop rest
        { st with listCounter := st.listCounter + 1,
                  paras := st.paras ++ [itemPara st.isOrderedList (st.listCounter + 1) it] } := by
  simp only [itemTokens, List.cons_append, List.nil_append, renderLoop]
  rw [addParagraph, h]
  simp only [if_true]
  cases ho : st.isOrderedList <;>
    simp [itemPara, orderedPara, bulletPara, ho]

/-- The items of a list consume their tokens and append one paragraph
per item, incrementing the counter once per item. -/
theorem renderLoop_items (items : List InlineTok) (rest : List MdToken) (st : RenderState)
    (h : st.inList = true) :
    renderLoop (items.flatMap itemTokens ++ rest) st =
      renderLoop rest
        { st with listCounter := st.listCounter + items.length,
                  paras := st.paras ++ itemParasFrom st.isOrderedList st.listCounter items } := by
  induction items generalizing st with
  | nil => simp [itemParasFrom]
  | cons it tl ih =>
      rw [List.flatMap_cons, List.append_assoc, renderLoop_item it _ st h]
      rw [ih _ (by simp [h])]
      have hc : st.listCounter + 1 + tl.length = st.listCounter + (tl.length + 1) := by omega
      simp [itemParasFrom, List.append_assoc, hc]

/-- Unordered items render independently of the counter value. -/
theorem itemParasFrom_false (items : List InlineTok) (c : Nat) :
    itemParasFrom false c items = items.map bulletPara := by
  induction items generalizing c with
  | nil => rfl
  | cons it tl ih => simp [itemParasFrom, itemPara, ih]

/-- Rendering one block consumes its tokens, appends its paragraphs and
leaves the list flag cleared. -/
theorem renderLoop_block (b : Block) (rest : List MdToken) (st : RenderState)
    (h : st.inList = false) :
    ∃ st', renderLoop (blockTokens b ++ rest) st = renderLoop rest st' ∧
      st'.inList = false ∧ st'.paras = st.paras ++ blockParas b := by
  cases b with
  | heading level tok =>
      refine ⟨addHeading st level tok, ?_, ?_, ?_⟩
      · simp [blockTokens, renderLoop]
      · simp [addHeading, h]
      · simp [addHeading, blockParas, headingPara]
  | para tok =>
      refine ⟨addParagraph st tok, ?_, ?_, ?_⟩
      · simp [blockTokens, renderLoop]
      · simp [addParagraph, h]
      · simp [addParagraph, h, blockParas, plainPara]
  | ulist items =>
      refine ⟨⟨false, false, items.length,
        st.paras ++ items.map bulletPara⟩, ?_, rfl, rfl⟩
      have hshape : blockTokens (.ulist items) ++ rest =
          .bulletListOpen :: (items.flatMap itemTokens ++ (.bulletListClose :: rest)) := by
        simp [blockTokens]
      rw [hshape]
      simp only [renderLoop]
      rw [renderLoop_items items _ _ rfl]
      simp [renderLoop, itemParasFrom_false]
  | olist items =>
      refine ⟨⟨false, true, items.length,
        st.paras ++ itemParasFrom true 0 items⟩, ?_, rfl, rfl⟩
      have hshape : blockTokens (.olist items) ++ rest =
          .orderedListOpen :: (items.flatMap itemTokens ++ (.orderedListClose :: rest)) := by
        simp [blockTokens]
      rw [hshape]
      simp only [renderLoop]
      rw [renderLoop_items items _ _ rfl]
      simp [renderLoop, blockParas]

/-- Rendering a whole document of the subset appends exactly the
per-block paragraphs in source order. -/
theorem renderLoop_docTokens (bs : List Block) (st : RenderState)
    (h : st.inList = false) :
    (renderLoop (docTokens bs) st).paras = st.paras ++ docParas bs := by
  induction bs generalizing st with
  | nil => simp [docTokens, docParas, renderLoop]
  | cons b tl ih =>
      obtain ⟨st', heq, hfl, hps⟩ := renderLoop_block b (docTokens tl) st h
      have : docTokens (b :: tl) = blockTokens b ++ docTokens tl := by
        simp [docTokens]
      rw [this, heq, ih st' hfl, hps]
      simp [docParas, List.append_assoc]

/-- One paragraph is produced per list item. -/
theorem itemParasFrom_length (ordered : Bool) (items : List InlineTok) (c : Nat) :
    (itemParasFrom ordered c items).length = items.length := by
  induction items generalizing c with
  | nil => rfl
  | cons it tl ih => simp [itemParasFrom, ih]

/-- One paragraph is produced per block-level node. -/
theorem docParas_length (bs : List Block) :
    (docParas bs).length = docBlockCount bs := by
  induction bs with
  | nil => rfl
  | cons b tl ih =>
      have hstep : docParas (b :: tl) = blockParas b ++ docParas tl := by
        simp [docParas]
      have hcnt : docBlockCount (b :: tl) = blockCount b + docBlockCount tl := by
        simp [docBlockCount]
      rw [hstep, List.length_append, ih, hcnt]
      congr 1
      cases b with
      | heading level tok => rfl
      | para tok => rfl
      | ulist items => simp [blockParas, blockCount]
      | olist items => simp [blockParas, blockCount, itemParasFrom_length]

/-- The marker text of a paragraph: the text of its first run. -/
def firstRunText (p : Paragraph) : Option String := p.runs.head?.map TextRun.text

/-- The ordered-item paragraphs starting at counter value `c` carry the
marker texts `c+1. `, `c+2. `, … in order. -/
theorem itemParasFrom_true_markers (items : List InlineTok) (c : Nat) :
    (itemParasFrom true c items).map firstRunText =
      (List.range items.length).map fun i => some (toString (c + i + 1) ++ ". ") := by
  induction items generalizing c with
  | nil => rfl
  | cons it tl ih =>
      simp only [List.length_cons]
      rw [List.range_succ_eq_map]
      simp only [itemParasFrom, itemPara, if_true, List.map_cons, List.map_map, ih (c + 1)]
      refine List.cons_eq_cons.mpr ⟨?_, ?_⟩
      · simp [orderedPara, firstRunText]
      · refine List.map_congr_left fun i _ => ?_
        simp only [Function.comp]
        have : c + 1 + i + 1 = c + Nat.succ i + 1 := by omega
        rw [this]

/-! ## Locator lemmas -/

/-- The per-slide scan is `List.find?` with the shape test. -/
theorem findShapeInShapes_eq (shs : List Shape) :
    findShapeInShapes shs = shs.find? shapeMatches := by
  induction shs with
  | nil => rfl
  | cons sh rest ih =>
      by_cases h : shapeMatches sh
      · simp [findShapeInShapes, List.find?, h]
      · simp only [findShapeInShapes, if_neg h, ih, List.find?]
        rw [Bool.eq_false_iff.mpr h]

/-- Characterisation of the slide scan: a hit names the first slide, in
document order, whose shape list has a match, and returns that slide's
first matching shape. -/
theorem findShapeAux_some (sls : List Slide) (idx₀ idx : Nat) (sh : Shape)
    (h : findShapeAux idx₀ sls = some (idx, sh)) :
    ∃ k, k < sls.length ∧ idx = idx₀ + k ∧
      (∃ sl, sls[k]? = some sl ∧ sl.shapes.find? shapeMatches = some sh) ∧
      (∀ j, j < k → ∀ sl, sls[j]? = some sl → sl.shapes.find? shapeMatches = none) := by
  induction sls generalizing idx₀ with
  | nil => simp [findShapeAux] at h
  | cons sl rest ih =>
      rw [findShapeAux] at h
      cases hsl : findShapeInShapes sl.shapes with
      | some found =>
          rw [hsl] at h
          refine ⟨0, by simp, ?_, ⟨sl, by simp, ?_⟩, by omega⟩
          · cases h; omega
          · rw [← findShapeInShapes_eq, hsl]; cases h; rfl
      | none =>
          rw [hsl] at h
          obtain ⟨k, hk, hidx, hfound, hbefore⟩ := ih (idx₀ + 1) h
          refine ⟨k + 1, by simpa using Nat.succ_lt_succ hk, by omega, by simpa using hfound, ?_⟩
          intro j hj sl' hsl'
          cases j with
          | zero =>
              simp only [List.getElem?_cons_zero, Option.some.injEq] at hsl'
              rw [← hsl', ← findShapeInShapes_eq, hsl]
          | succ j' =>
              exact hbefore j' (by omega) sl' (by simpa using hsl')

/-- When no shape in the document matches, the slide scan fails. -/
theorem findShapeAux_none (sls : List Slide) (idx₀ : Nat)
    (h : ∀ sl ∈ sls, ∀ s ∈ sl.shapes, shapeMatches s = false) :
    findShapeAux idx₀ sls = none := by
  induction sls generalizing idx₀ with
  | nil => rfl
  | cons sl rest ih =>
      rw [findShapeAux, findShapeInShapes_eq]
      rw [List.find?_eq_none.mpr fun s hs => by
        simp [h sl (by simp) s hs]]
      exact ih _ fun sl' hsl' => h sl' (by simp [hsl'])

/-- Replacing the frame of the first match keeps all shape identifiers,
so the scan finds the same shape with the new frame. -/
theorem findShapeInShapes_replace (tf : TextFrame) (shs : List Shape) :
    findShapeInShapes (replaceInShapes tf shs) =
      (findShapeInShapes shs).map fun sh => { sh with frame := some tf } := by
  induction shs with
  | nil => rfl
  | cons sh rest ih =>
      by_cases h : shapeMatches sh
      · have h' : shapeMatches { sh with frame := some tf } = true := h
        simp [replaceInShapes, findShapeInShapes, h, h']
      · have h' : shapeMatches { sh with frame := some tf } = false :=
          Bool.eq_false_iff.mpr h
        simp [replaceInShapes, findShapeInShapes, h, ih]

/-- Replacing the placeholder frame commutes with the locator. -/
theorem findShapeAux_replace (tf : TextFrame) (sls : List Slide) (idx₀ : Nat) :
    findShapeAux idx₀ (replaceInSlides tf sls) =
      (findShapeAux idx₀ sls).map fun p => (p.1, { p.2 with frame := some tf }) := by
  induction sls generalizing idx₀ with
  | nil => rfl
  | cons sl rest ih =>
      cases hsl : findShapeInShapes sl.shapes with
      | some found =>
          simp [replaceInSlides, hsl, findShapeAux, findShapeInShapes_replace, hsl]
      | none =>
          simp [replaceInSlides, hsl, findShapeAux, ih]

/-! ## Inline-flag lemmas -/

/-- While no `strong_close` child appears, every run emitted after a
`strong_open` is bold, whatever the italic flag does meanwhile. -/
theorem applyAux_bold_persists (ys : List Inline) (i : Bool)
    (h : Inline.strongClose ∉ ys) :
    ∀ r ∈ applyAux true i ys, r.bold = true := by
  induction ys generalizing i with
  | nil => simp [applyAux]
  | cons y tl ih =>
      have htl : Inline.strongClose ∉ tl := fun hc => h (List.mem_cons_of_mem _ hc)
      cases y with
      | text s =>
          intro r hr
          rcases List.mem_cons.mp hr with h1 | h1
          · rw [h1]
          · exact ih i htl r h1
      | strongOpen => exact ih i htl
      | strongClose => exact absurd (List.mem_cons_self _ _) h
      | emOpen => exact ih true htl
      | emClose => exact ih false htl
      | codeInline s =>
          intro r hr
          rcases List.mem_cons.mp hr with h1 | h1
          · rw [h1]
          · exact ih i htl r h1
      | linkOpen => exact ih i htl
      | linkClose => exact ih i htl
      | softbreak => exact ih i htl
      | hardbreak => exact ih i htl

/-- While no `em_close` child appears, every run emitted after an
`em_open` is italic, whatever the bold flag does meanwhile. -/
theorem applyAux_italic_persists (ys : List Inline) (b : Bool)
    (h : Inline.emClose ∉ ys) :
    ∀ r ∈ applyAux b true ys, r.italic = true := by
  induction ys generalizing b with
  | nil => simp [applyAux]
  | cons y tl ih =>
      have htl : Inline.emClose ∉ tl := fun hc => h (List.mem_cons_of_mem _ hc)
      cases y with
      | text s =>
          intro r hr
          rcases List.mem_cons.mp hr with h1 | h1
          · rw [h1]
          · exact ih b htl r h1
      | strongOpen => exact ih true htl
      | strongClose => exact ih false htl
      | emOpen => exact ih b htl
      | emClose => exact absurd (List.mem_cons_self _ _) h
      | codeInline s =>
          intro r hr
          rcases List.mem_cons.mp hr with h1 | h1
          · rw [h1]
          · exact ih b htl r h1
      | linkOpen => exact ih b htl
      | linkClose => exact ih b htl
      | softbreak => exact ih b htl
      | hardbreak => exact ih b htl

/-! ## Polling-loop lemmas -/

/-- The loop never polls more often than its budget. -/
theorem pollsUsed_le_budget (env : Nat → FileState) :
    ∀ (rem i : Nat), pollsUsed env i rem ≤ rem := by
  intro rem
  induction rem with
  | zero => intro i; exact Nat.le_refl 0
  | succ rem ih =>
      intro i
      cases henv : env i with
      | active => simp [pollsUsed, henv]
      | failedState msg => simp [pollsUsed, henv]
      | processing =>
          simp only [pollsUsed, henv]
          have := ih (i + 1)
          omega

/-- The sleeps performed are exactly the capped-exponential schedule,
one entry per continued iteration. -/
theorem pollRun_sleeps_eq (env : Nat → FileState) :
    ∀ (rem i : Nat), (pollRun env i rem).1 =
      (List.range (pollRun env i rem).1.length).map fun j => backoffDelay (i + j) := by
  intro rem
  induction rem with
  | zero => intro i; rfl
  | succ rem ih =>
      intro i
      cases henv : env i with
      | active => simp [pollRun, henv]
      | failedState msg => simp [pollRun, henv]
      | processing =>
          simp only [pollRun, henv, List.length_cons]
          rw [List.range_succ_eq_map, List.map_cons]
          refine List.cons_eq_cons.mpr ⟨by rw [Nat.add_zero], ?_⟩
          rw [List.map_map]
          nth_rewrite 1 [ih (i + 1)]
          refine List.map_congr_left fun j _ => ?_
          simp only [Function.comp]
          congr 1
          omega

/-- A run over states that keep processing exhausts the budget and
raises the timeout error. -/
theorem pollRun_timeout (env : Nat → FileState) :
    ∀ (rem i : Nat), (∀ j, j < rem → env (i + j) = .processing) →
      (pollRun env i rem).2 = .error .processingTimeout := by
  intro rem
  induction rem with
  | zero => intro i _; rfl
  | succ rem ih =>
      intro i h
      have h0 : env i = .processing := by simpa using h 0 (by omega)
      simp only [pollRun, h0]
      exact ih (i + 1) fun j hj => by
        have := h (j + 1) (by omega)
        rw [← this]
        congr 1
        omega

/-- A remote `FAILED` state at poll `k` is surfaced at once: the error
is raised after exactly `k + 1` polls, short of the budget. -/
theorem pollRun_failed (env : Nat → FileState) (msg : String) :
    ∀ (k rem i : Nat), k < rem → env (i + k) = .failedState msg →
      (∀ j, j < k → env (i + j) = .processing) →
      (pollRun env i rem).2 = .error (.processingFailed msg) ∧
        pollsUsed env i rem = k + 1 := by
  intro k
  induction k with
  | zero =>
      intro rem i hlt hf _
      cases rem with
      | zero => omega
      | succ rem =>
          have h0 : env i = .failedState msg := by simpa using hf
          exact ⟨by simp [pollRun, h0], by simp [pollsUsed, h0]⟩
  | succ k ih =>
      intro rem i hlt hf hb
      cases rem with
      | zero => omega
      | succ rem =>
          have h0 : env i = .processing := by simpa using hb 0 (by omega)
          have hrec := ih rem (i + 1) (by omega)
            (by rw [← hf]; congr 1; omega)
            (fun j hj => by
              have := hb (j + 1) (by omega)
              rw [← this]
              congr 1
              omega)
          refine ⟨?_, ?_⟩
          · simp only [pollRun, h0]
            exact hrec.1
          · simp only [pollsUsed, h0]
            omega

/-- The backoff never exceeds its fixed ceiling of 10 seconds. -/
theorem backoffDelay_le (i : Nat) : backoffDelay i ≤ 10 :=
  Nat.min_le_right _ _

/-- The backoff is nondecreasing in the poll index. -/
theorem backoffDelay_mono (i j : Nat) (h : i ≤ j) :
    backoffDelay i ≤ backoffDelay j := by
  unfold backoffDelay
  exact min_le_min (Nat.pow_le_pow_right (by omega) (Nat.div_le_div_right h)) (le_refl 10)

/-- From poll 12 on the backoff sits at the ceiling. -/
theorem backoffDelay_cap (i : Nat) (h : 12 ≤ i) : backoffDelay i = 10 := by
  unfold backoffDelay
  refine Nat.min_eq_right ?_
  have h4 : 4 ≤ i / 3 := by omega
  calc (10 : Nat) ≤ 2 ^ 4 := by norm_num
    _ ≤ 2 ^ (i / 3) := Nat.pow_le_pow_right (by omega) h4

/-! ## Table-model helper lemmas -/

/-- Mapping a row transformer that does not move rows across the filter
predicate commutes with filtering. -/
theorem filter_map_comm {α : Type} (l : List α) (g : α → α) (p : α → Bool)
    (h : ∀ r ∈ l, p (g r) = p r) :
    (l.map g).filter p = (l.filter p).map g := by
  induction l with
  | nil => rfl
  | cons a tl ih =>
      have ha := h a (by simp)
      have htl : ∀ r ∈ tl, p (g r) = p r := fun r hr => h r (by simp [hr])
      cases hp : p a <;>
        simp [List.filter_cons, ha, hp, ih htl]

/-- A predicate whose filter is a singleton is first satisfied by that
element. -/
theorem find?_of_filter_eq_singleton {α : Type} {l : List α} {p : α → Bool} {x : α}
    (h : l.filter p = [x]) : l.find? p = some x := by
  induction l with
  | nil => simp at h
  | cons a tl ih =>
      cases hp : p a with
      | false =>
          rw [List.filter_cons, hp] at h
          simp only [Bool.false_eq_true, if_false] at h
          simp [List.find?, hp, ih h]
      | true =>
          rw [List.filter_cons, hp] at h
          simp only [if_true] at h
          rw [List.cons_eq_cons] at h
          obtain ⟨h1, -⟩ := h
          subst h1
          simp [List.find?, hp]

/-- A member satisfying a predicate whose filter has at most one element
is the whole filter. -/
theorem filter_eq_singleton_of_mem {α : Type} {l : List α} {p : α → Bool} {x : α}
    (hx : x ∈ l) (hpx : p x = true) (hlen : (l.filter p).length ≤ 1) :
    l.filter p = [x] := by
  have hmem : x ∈ l.filter p := List.mem_filter.mpr ⟨hx, hpx⟩
  have hone : (l.filter p).length = 1 :=
    Nat.le_antisymm hlen (List.length_pos.mpr (List.ne_nil_of_mem hmem))
  obtain ⟨a, ha⟩ := List.length_eq_one.mp hone
  rw [ha] at hmem ⊢
  simp only [List.mem_singleton] at hmem
  rw [hmem]

/-! ## Review-table invariant and `save_review` -/

/-- Well-formedness of the review table: row ids were issued by the
fresh-id counter, are pairwise distinct, and at most one live review
exists per file. -/
def ReviewWF (db : DB) : Prop :=
  (∀ r ∈ db.reviews, r.id < db.nextId) ∧
  (db.reviews.map ReviewRec.id).Nodup ∧
  ∀ fid, ((db.reviews.filter fun r => r.fileId = fid).length ≤ 1)

/-- Full behaviour of one `save_review` call on a well-formed table:
the returned row is the file's single live review, in `DRAFT`, carrying
the submitted text; other files' reviews are untouched; well-formedness
is preserved; and when a review already existed the row id is reused
(update in place, no parallel record). -/
theorem save_review_spec (db : DB) (fid : Nat) (req : ReviewRequest)
    (hA : ∀ r ∈ db.reviews, r.id < db.nextId)
    (hB : (db.reviews.map ReviewRec.id).Nodup)
    (hC : ∀ g, ((db.reviews.filter fun r => r.fileId = g).length ≤ 1)) :
    (save_review db fid req).2.status = .draft ∧
    (save_review db fid req).2.fileId = fid ∧
    (save_review db fid req).2.analysisTextFinal = req.analysisTextFinal ∧
    ((save_review db fid req).1.reviews.filter fun r => r.fileId = fid) =
      [(save_review db fid req).2] ∧
    (∀ g, g ≠ fid →
      ((save_review db fid req).1.reviews.filter fun r => r.fileId = g) =
        (db.reviews.filter fun r => r.fileId = g)) ∧
    (∀ r ∈ (save_review db fid req).1.reviews, r.id < (save_review db fid req).1.nextId) ∧
    ((save_review db fid req).1.reviews.map ReviewRec.id).Nodup ∧
    db.nextId ≤ (save_review db fid req).1.nextId ∧
    (∀ r₀, db.reviews.find? (fun r => r.fileId = fid) = some r₀ →
      (save_review db fid req).2.id = r₀.id) := by
  cases hfind : db.reviews.find? fun r => r.fileId = fid with
  | none =>
      have hnone : ∀ x ∈ db.reviews, ¬ (decide (x.fileId = fid)) = true :=
        List.find?_eq_none.mp hfind
      have hfilter : (db.reviews.filter fun r => r.fileId = fid) = [] :=
        List.filter_eq_nil_iff.mpr hnone
      simp only [save_review, hfind]
      refine ⟨trivial, trivial, trivial, ?_, ?_, ?_, ?_, by omega, ?_⟩
      · rw [List.filter_append, hfilter]
        simp
      · intro g hg
        rw [List.filter_append]
        have : (List.filter (fun r => decide (r.fileId = g))
            [({ id := db.nextId, fileId := fid, suggestionId := req.suggestionId,
                analysisTextFinal := req.analysisTextFinal,
                editorNotes := req.editorNotes, status := .draft } : ReviewRec)]) = [] := by
          simp [List.filter, Ne.symm hg]
        rw [this, List.append_nil]
      · intro r hr
        rcases List.mem_append.mp hr with h1 | h1
        · exact Nat.lt_succ_of_lt (hA r h1)
        · simp only [List.mem_singleton] at h1
          rw [h1]
          exact Nat.lt_succ_self _
      · rw [List.map_append, List.map_singleton]
        rw [List.nodup_append]
        refine ⟨hB, List.nodup_singleton _, ?_⟩
        intro a ha hmem
        simp only [List.mem_singleton] at hmem
        obtain ⟨r, hr, hrid⟩ := List.mem_map.mp ha
        have := hA r hr
        omega
      · intro r₀ h₀
        simp at h₀
  | some existing =>
      have hmem : existing ∈ db.reviews := List.mem_of_find?_eq_some hfind
      have hfile : existing.fileId = fid := by
        have := List.find?_some hfind
        exact of_decide_eq_true this
      simp only [save_review, hfind]
      set updated : ReviewRec :=
        { id := existing.id, fileId := fid, suggestionId := req.suggestionId,
          analysisTextFinal := req.analysisTextFinal,
          editorNotes := req.editorNotes, status := .draft } with hupd
      have hid : ∀ r : ReviewRec,
          (if r.id = existing.id then updated else r).id = r.id := by
        intro r
        by_cases h : r.id = existing.id <;> simp [h, hupd]
      have hfl : ∀ r ∈ db.reviews,
          (if r.id = existing.id then updated else r).fileId = r.fileId := by
        intro r hr
        by_cases h : r.id = existing.id
        · have : r = existing := List.inj_on_of_nodup_map hB hr hmem h
          rw [this]
          simp [hupd, hfile]
        · simp [h]
      refine ⟨trivial, trivial, trivial, ?_, ?_, ?_, ?_, by omega, ?_⟩
      · rw [filter_map_comm _ _ _ fun r hr => by rw [hfl r hr]]
        rw [filter_eq_singleton_of_mem hmem (decide_eq_true hfile) (hC fid)]
        simp
      · intro g hg
        rw [filter_map_comm _ _ _ fun r hr => by rw [hfl r hr]]
        refine Eq.trans (List.map_congr_left fun r hr => ?_) (List.map_id _)
        have hrl := List.mem_filter.mp hr
        have hrg : r.fileId = g := of_decide_eq_true hrl.2
        by_cases h : r.id = existing.id
        · have hre : r = existing := List.inj_on_of_nodup_map hB hrl.1 hmem h
          rw [hre] at hrg
          exact (hg (by rw [← hrg]; exact hfile)).elim
        · simp [h]
      · intro r hr
        obtain ⟨r₀, hr₀, hr₀eq⟩ := List.mem_map.mp hr
        rw [← hr₀eq]
        rw [hid r₀]
        exact hA r₀ hr₀
      · have : (db.reviews.map fun r => if r.id = existing.id then updated else r).map
            ReviewRec.id = db.reviews.map ReviewRec.id := by
          rw [List.map_map]
          exact List.map_congr_left fun r _ => hid r
        rw [this]
        exact hB
      · intro r₀ h₀
        injection h₀ with h₀
        rw [← h₀]

/-! ## Pipeline lemmas -/

/-- `upload_files` does not touch the review table. -/
theorem upload_files_reviews (db : DB) (cn : Option String) (fn : String)
    (pptx pdf : Blob) :
    (upload_files db cn fn pptx pdf).1.reviews = db.reviews ∧
      db.nextId ≤ (upload_files db cn fn pptx pdf).1.nextId :=
  ⟨rfl, by simp [upload_files]⟩

/-- `analyze_file` never touches the review table and only advances the
fresh-id counter. -/
theorem analyze_file_reviews (db : DB) (fid : Nat) (ai : Except String AiSummary) :
    (analyze_file db fid ai).1.reviews = db.reviews ∧
      db.nextId ≤ (analyze_file db fid ai).1.nextId := by
  unfold analyze_file analyzeBody analyzeFail setJobFailed setJobSucceeded withNewJob
  repeat' split
  all_goals exact ⟨rfl, by simp; try omega⟩

/-- On any failure, `approveBody` leaves the review and file tables
exactly as they were. -/
theorem approveBody_error_tables (db1 : DB) (jobId fid : Nat)
    (parse : String → List MdToken) :
    ∀ e, (approveBody db1 jobId fid parse).2 = .error e →
      (approveBody db1 jobId fid parse).1.reviews = db1.reviews ∧
        (approveBody db1 jobId fid parse).1.files = db1.files := by
  unfold approveBody
  repeat' split
  all_goals intro e he
  all_goals first
    | exact ⟨rfl, rfl⟩
    | simp at he

/-- The review table after `approveBody` is either untouched or has one
row's status flipped to `APPROVED`, and the counter never moves. -/
theorem approveBody_reviews_shape (db1 : DB) (jobId fid : Nat)
    (parse : String → List MdToken) :
    ((approveBody db1 jobId fid parse).1.reviews = db1.reviews ∨
      ∃ rid, (approveBody db1 jobId fid parse).1.reviews =
        db1.reviews.map fun r =>
          if r.id = rid then { r with status := .approvedStatus } else r) ∧
    (approveBody db1 jobId fid parse).1.nextId = db1.nextId := by
  unfold approveBody
  repeat' split
  all_goals first
    | exact ⟨Or.inl rfl, rfl⟩
    | exact ⟨Or.inr ⟨_, rfl⟩, rfl⟩

/-- On any failure, `analyzeBody` rewrites the attempt's job to `FAILED`
with the captured message. -/
theorem analyzeBody_jobs (db1 : DB) (jobId fid : Nat) (ai : Except String AiSummary) :
    ∀ e, (analyzeBody db1 jobId fid ai).2 = .error e →
      ∃ msg, (analyzeBody db1 jobId fid ai).1.jobs =
        db1.jobs.map fun j =>
          if j.id = jobId then { j with status := .failed, error := some msg } else j := by
  unfold analyzeBody analyzeFail setJobFailed
  repeat' split
  all_goals intro e he
  all_goals first
    | exact ⟨_, rfl⟩
    | simp at he

/-- On failure, `approveBody` either passes a missing-File/missing-Review
`HTTPException(404)` through with the job table untouched, or (for every
other failure) rewrites the attempt's job to `FAILED` with the captured
message. -/
theorem approveBody_jobs (db1 : DB) (jobId fid : Nat) (parse : String → List MdToken) :
    ∀ e, (approveBody db1 jobId fid parse).2 = .error e →
      ((e = .http 404 "File not found" ∨
          e = .http 404 "No review found for this file") ∧
        (approveBody db1 jobId fid parse).1.jobs = db1.jobs) ∨
      ((∀ d, e ≠ .http 404 d) ∧
        ∃ msg, (approveBody db1 jobId fid parse).1.jobs =
          db1.jobs.map fun j =>
            if j.id = jobId then { j with status := .failed, error := some msg } else j) := by
  unfold approveBody approveFail setJobFailed
  repeat' split
  all_goals intro e he
  all_goals first
    | (refine Or.inl ⟨?_, rfl⟩
       simp at he
       first
         | exact Or.inl he.symm
         | exact Or.inl he
         | exact Or.inr he.symm)
    | (refine Or.inr ⟨?_, _, rfl⟩
       simp at he
       intro d hd
       rw [hd] at he
       simp at he)
    | simp at he

/-- The re-selected row after the pointer update carries the new
regenerated path. -/
theorem reselectFile_ptr (dbx : DB) (fid : Nat) (fb : FileRec) (path : String)
    (hall : ∀ f ∈ dbx.files, f.id = fid → f.storagePathRegenerated = some path)
    (hex : ∃ f ∈ dbx.files, f.id = fid) :
    (reselectFile dbx fid fb).storagePathRegenerated = some path := by
  unfold reselectFile
  cases hsel : dbx.files.find? fun f => f.id = fid with
  | none =>
      obtain ⟨f, hf, hfid⟩ := hex
      have := List.find?_eq_none.mp hsel f hf
      simp [hfid] at this
  | some u =>
      have hp := List.find?_some hsel
      exact hall u (List.mem_of_find?_eq_some hsel) (of_decide_eq_true hp)

/-- When the file row exists but no review row does, `approveBody` fails
with the review-NotFound 404 and changes nothing at all. -/
theorem approveBody_no_review (db1 : DB) (jobId fid : Nat)
    (parse : String → List MdToken)
    (hf : (db1.files.find? fun f => f.id = fid).isSome)
    (hr : (db1.reviews.find? fun r => r.fileId = fid) = none) :
    approveBody db1 jobId fid parse =
      (db1, .error (.http 404 "No review found for this file")) := by
  obtain ⟨fileRec, hfr⟩ := Option.isSome_iff_exists.mp hf
  unfold approveBody
  simp [hfr, hr]

/-- On success, `approveBody` returns a file row carrying a regenerated
pointer and flips the file's review to `APPROVED`. -/
theorem approveBody_ok (db1 : DB) (jobId fid : Nat) (parse : String → List MdToken) :
    ∀ v, (approveBody db1 jobId fid parse).2 = .ok v →
      v.storagePathRegenerated ≠ none ∧
        ∃ r ∈ (approveBody db1 jobId fid parse).1.reviews,
          r.fileId = fid ∧ r.status = .approvedStatus := by
  unfold approveBody approveFail
  repeat' split
  all_goals intro v hv
  all_goals try simp at hv
  rename_i x1 fileRec hfr x2 review hrev x3 prs hblob x4 newPrs hins
  have hfid : fileRec.id = fid := by
    have := List.find?_some hfr
    exact of_decide_eq_true this
  have hrfid : review.fileId = fid := by
    have := List.find?_some hrev
    exact of_decide_eq_true this
  have hrmem : review ∈ db1.reviews := List.mem_of_find?_eq_some hrev
  have hfmem : fileRec ∈ db1.files := List.mem_of_find?_eq_some hfr
  rw [← hv]
  constructor
  · rw [reselectFile_ptr _ fid _
      ("factsheets/regenerated/" ++ toString fid ++ ".pptx") ?hall ?hex]
    · simp
    case hall =>
      intro f hf hfid'
      simp only [setJobSucceeded, List.mem_map] at hf
      obtain ⟨f0, hf0, hfeq⟩ := hf
      by_cases h0 : f0.id = fid
      · rw [← hfeq]
        simp [h0]
      · rw [← hfeq] at hfid'
        simp [h0] at hfid'
    case hex =>
      simp only [setJobSucceeded]
      refine ⟨_, List.mem_map_of_mem _ hfmem, ?_⟩
      simp [hfid]
  · simp only [setJobSucceeded]
    refine ⟨{ review with status := .approvedStatus }, ?_, hrfid, rfl⟩
    have hmm := List.mem_map_of_mem
      (fun r => if r.id = review.id then
        { r with status := ReviewStatus.approvedStatus } else r) hrmem
    simpa using hmm

/-! ## Review-invariant transfer -/

/-- Transfer of the review invariant across an id- and file-preserving
row rewrite. -/
theorem reviewWF_transfer (db db' : DB) (g : ReviewRec → ReviewRec)
    (hrev : db'.reviews = db.reviews.map g)
    (hid : ∀ r, (g r).id = r.id) (hfl : ∀ r, (g r).fileId = r.fileId)
    (hnext : db.nextId ≤ db'.nextId) (hwf : ReviewWF db) : ReviewWF db' := by
  obtain ⟨hA, hB, hC⟩ := hwf
  refine ⟨?_, ?_, ?_⟩
  · intro r hr
    rw [hrev] at hr
    obtain ⟨r0, hr0, he⟩ := List.mem_map.mp hr
    rw [← he, hid r0]
    exact lt_of_lt_of_le (hA r0 hr0) hnext
  · rw [hrev, List.map_map, List.map_congr_left fun r _ => by simpa using hid r]
    exact hB
  · intro fid
    rw [hrev, filter_map_comm _ _ _ fun r _ => by rw [hfl r]]
    rw [List.length_map]
    exact hC fid

/-- Transfer of the review invariant when the review table is unchanged
and the counter does not decrease. -/
theorem reviewWF_carry (db db' : DB) (hrev : db'.reviews = db.reviews)
    (hnext : db.nextId ≤ db'.nextId) (hwf : ReviewWF db) : ReviewWF db' :=
  reviewWF_transfer db db' (fun r => r) (by simp [hrev]) (fun _ => rfl)
    (fun _ => rfl) hnext hwf

/-- `save_review` preserves the review invariant. -/
theorem save_review_wf (db : DB) (fid : Nat) (req : ReviewRequest)
    (hwf : ReviewWF db) : ReviewWF (save_review db fid req).1 := by
  obtain ⟨hA, hB, hC⟩ := hwf
  obtain ⟨-, -, -, hfid, hother, hA', hB', hmono, -⟩ := save_review_spec db fid req hA hB hC
  refine ⟨hA', hB', ?_⟩
  intro g
  by_cases hg : g = fid
  · rw [hg, hfid]
    simp
  · rw [hother g hg]
    exact hC g

/-- `upload_files` preserves the review invariant. -/
theorem upload_files_wf (db : DB) (cn : Option String) (fn : String)
    (pptx pdf : Blob) (hwf : ReviewWF db) :
    ReviewWF (upload_files db cn fn pptx pdf).1 :=
  reviewWF_carry db _ (upload_files_reviews db cn fn pptx pdf).1
    (upload_files_reviews db cn fn pptx pdf).2 hwf

/-- `analyze_file` preserves the review invariant. -/
theorem analyze_file_wf (db : DB) (fid : Nat) (ai : Except String AiSummary)
    (hwf : ReviewWF db) : ReviewWF (analyze_file db fid ai).1 :=
  reviewWF_carry db _ (analyze_file_reviews db fid ai).1
    (analyze_file_reviews db fid ai).2 hwf

/-- `approve_and_regenerate` preserves the review invariant. -/
theorem approve_wf (db : DB) (fid : Nat) (parse : String → List MdToken)
    (hwf : ReviewWF db) : ReviewWF (approve_and_regenerate db fid parse).1 := by
  have hbody := approveBody_reviews_shape
    (withNewJob db (newJobRow db fid .regenerateJob)) db.nextId fid parse
  have hmono : db.nextId ≤ (approve_and_regenerate db fid parse).1.nextId := by
    have := hbody.2
    unfold approve_and_regenerate
    rw [this]
    simp [withNewJob]
  rcases hbody.1 with h | ⟨rid, h⟩
  · exact reviewWF_carry db _ h hmono hwf
  · refine reviewWF_transfer db _ _ h ?_ ?_ hmono hwf
    · intro r
      by_cases hr : r.id = rid <;> simp [hr]
    · intro r
      by_cases hr : r.id = rid <;> simp [hr]

/-! ## Remaining helper lemmas -/

/-- Clearing leaves exactly one paragraph. -/
theorem clearFrame_length (tf : TextFrame) : (clearFrame tf).paras.length = 1 := by
  cases h : tf.paras <;> simp [clearFrame, h]

/-- The paragraph the clear leaves behind has no runs (blank text). -/
theorem clearFrame_runs (tf : TextFrame) :
    ∀ p ∈ (clearFrame tf).paras, p.runs = [] := by
  cases h : tf.paras <;> simp [clearFrame, h]

/-- Per-block decomposition of a document's paragraphs around one
block. -/
theorem docParas_append_cons (bs1 bs2 : List Block) (b : Block) :
    docParas (bs1 ++ b :: bs2) = docParas bs1 ++ blockParas b ++ docParas bs2 := by
  simp [docParas, List.append_assoc]

/-! ## Concrete fixtures used by counterexamples and witnesses -/

/-- A placeholder shape holding one old paragraph of placeholder text. -/
def cexOldFrame : TextFrame := ⟨[{ size := some 18, runs := [{ text := "old text" }] }]⟩

/-- A shape named `AI_SUMMARY` with a text frame. -/
def cexShape : Shape := { name := "AI_SUMMARY", frame := some cexOldFrame }

/-- A one-slide presentation whose only shape is the placeholder. -/
def cexPrs : Prs := ⟨[⟨[cexShape]⟩]⟩

/-- A one-block document: the single paragraph `hello`. -/
def cexBlocks : List Block := [.para ⟨[.text "hello"], "hello"⟩]

/-- A markdown parse stub producing no tokens (its value is irrelevant
to the pipeline paths exercised by the witnesses). -/
def parse0 : String → List MdToken := fun _ => []

/-- The empty persistent state. -/
def emptyDB : DB := {}

/-! ## Claims -/

/-- C1, counterexample.  The claim says rendering fully clears the
placeholder and leaves **exactly one paragraph per block-level node with
no extra leading blank paragraph**.  On the one-block document `hello`
the code produces **two** paragraphs: `TextFrame.clear()` keeps one
emptied paragraph and every block is written with `add_paragraph`, so a
leading blank paragraph (runs `[]`, old paragraph properties) remains
above the rendered block. -/
theorem c1_counterexample :
    insert_markdown_into_ai_summary cexPrs (docTokens cexBlocks) =
      .ok ⟨[⟨[{ name := "AI_SUMMARY",
                frame := some ⟨[{ size := some 18 },
                                { size := some 12,
                                  runs := [{ text := "hello" }] }]⟩ }]⟩]⟩ ∧
    docBlockCount cexBlocks = 1 ∧
    ([({ size := some 18 } : Paragraph),
      { size := some 12, runs := [{ text := "hello" }] }].length ≠
        docBlockCount cexBlocks) ∧
    ({ size := some 18 } : Paragraph).runs = [] := by
  refine ⟨rfl, rfl, by decide, rfl⟩

/-- C1 (amended): `insert_markdown_into_ai_summary` clears the
placeholder down to one emptied paragraph (runs removed, paragraph-level
properties kept) and then appends exactly one paragraph per block-level
node of the parsed input in source order; the resulting placeholder
shape therefore holds `1 + (number of block-level nodes)` paragraphs —
the leading blank left by the clear, followed by the block paragraphs in
source order, with no trailing blank. -/
theorem c1_render_clears_and_appends (prs : Prs) (bs : List Block) (idx : Nat)
    (sh : Shape) (tf : TextFrame)
    (hf : find_ai_summary_shape prs = some (idx, sh))
    (htf : sh.frame = some tf) :
    insert_markdown_into_ai_summary prs (docTokens bs) =
      .ok ⟨replaceInSlides ⟨(clearFrame tf).paras ++ docParas bs⟩ prs.slides⟩ ∧
    find_ai_summary_shape
        ⟨replaceInSlides ⟨(clearFrame tf).paras ++ docParas bs⟩ prs.slides⟩ =
      some (idx, { sh with frame := some ⟨(clearFrame tf).paras ++ docParas bs⟩ }) ∧
    ((clearFrame tf).paras ++ docParas bs).length = 1 + docBlockCount bs ∧
    ∀ p ∈ (clearFrame tf).paras, p.runs = [] := by
  refine ⟨?_, ?_, ?_, clearFrame_runs tf⟩
  · simp only [insert_markdown_into_ai_summary, hf, htf]
    rw [renderLoop_docTokens _ _ rfl]
  · unfold find_ai_summary_shape at hf ⊢
    rw [findShapeAux_replace, hf]
    rfl
  · rw [List.length_append, clearFrame_length, docParas_length]

/-- Witness for C1 (amended) at the concrete fixture. -/
theorem c1_render_clears_and_appends_witness :
    insert_markdown_into_ai_summary cexPrs (docTokens cexBlocks) =
      .ok ⟨replaceInSlides ⟨(clearFrame cexOldFrame).paras ++ docParas cexBlocks⟩
            cexPrs.slides⟩ ∧
    find_ai_summary_shape
        ⟨replaceInSlides ⟨(clearFrame cexOldFrame).paras ++ docParas cexBlocks⟩
          cexPrs.slides⟩ =
      some (0, { cexShape with
        frame := some ⟨(clearFrame cexOldFrame).paras ++ docParas cexBlocks⟩ }) ∧
    ((clearFrame cexOldFrame).paras ++ docParas cexBlocks).length =
      1 + docBlockCount cexBlocks ∧
    ∀ p ∈ (clearFrame cexOldFrame).paras, p.runs = [] :=
  c1_render_clears_and_appends cexPrs cexBlocks 0 cexShape cexOldFrame
    (by decide) (by decide)

/-- C4: for an ordered-list block anywhere in the document the rendered
item paragraphs carry the marker texts `1. ` through `N. ` in order —
the counter restarts at 1 for each ordered-list block regardless of what
precedes it (including earlier ordered or unordered lists) — and an
unordered-list block renders every item with the constant bullet marker,
independent of any ordered-list counter state. -/
theorem c4_ordered_list_counters (bs1 bs2 : List Block) (items : List InlineTok) :
    (renderLoop (docTokens (bs1 ++ Block.olist items :: bs2)) {}).paras =
        docParas bs1 ++ itemParasFrom true 0 items ++ docParas bs2 ∧
    (itemParasFrom true 0 items).map firstRunText =
        (List.range items.length).map (fun i => some (toString (i + 1) ++ ". ")) ∧
    (renderLoop (docTokens (bs1 ++ Block.ulist items :: bs2)) {}).paras =
        docParas bs1 ++ items.map bulletPara ++ docParas bs2 ∧
    ∀ tok ∈ items, firstRunText (bulletPara tok) = some bulletGlyph := by
  refine ⟨?_, ?_, ?_, ?_⟩
  · rw [renderLoop_docTokens _ _ rfl, docParas_append_cons]
    rfl
  · rw [itemParasFrom_true_markers]
    refine List.map_congr_left fun i _ => ?_
    rw [Nat.zero_add]
  · rw [renderLoop_docTokens _ _ rfl, docParas_append_cons]
    rfl
  · intro tok _
    rfl

/-- Witness for C4: a two-item ordered list rendered alone carries the
markers `1. ` and `2. `. -/
theorem c4_ordered_list_counters_witness :
    (renderLoop (docTokens ([] ++ Block.olist
        [⟨[.text "a"], "a"⟩, ⟨[.text "b"], "b"⟩] :: [])) {}).paras =
      docParas [] ++ itemParasFrom true 0 [⟨[.text "a"], "a"⟩, ⟨[.text "b"], "b"⟩] ++
        docParas [] ∧
    (itemParasFrom true 0 [⟨[.text "a"], "a"⟩, ⟨[.text "b"], "b"⟩]).map firstRunText =
      (List.range 2).map (fun i => some (toString (i + 1) ++ ". ")) ∧
    firstRunText (bulletPara ⟨[.text "a"], "a"⟩) = some bulletGlyph := by
  have h := c4_ordered_list_counters [] [] [⟨[.text "a"], "a"⟩, ⟨[.text "b"], "b"⟩]
  exact ⟨h.1, h.2.1, h.2.2.2 _ (by decide)⟩

/-- C5: bold and italic are two independent flags applied to each
emitted run; the inline sequence of `"**a** plain *b*"` yields exactly
the three runs bold `a`, unstyled ` plain `, italic `b`; an unmatched
`strong_open` (resp. `em_open`) keeps its flag active for the rest of
that paragraph's children only; and every paragraph's runs are computed
with both flags starting `false`, so flags never leak into a following
paragraph, whatever the previous paragraph contained. -/
theorem c5_inline_flags (ys : List Inline) (i b : Bool) (c1 c2 : InlineTok) :
    applyInline ⟨[.strongOpen, .text "a", .strongClose, .text " plain ",
                  .emOpen, .text "b", .emClose], "**a** plain *b*"⟩ =
      [{ text := "a", bold := true }, { text := " plain " },
       { text := "b", italic := true }] ∧
    (Inline.strongClose ∉ ys → ∀ r ∈ applyAux true i ys, r.bold = true) ∧
    (Inline.emClose ∉ ys → ∀ r ∈ applyAux b true ys, r.italic = true) ∧
    (c2.children ≠ [] →
      (renderLoop (docTokens [Block.para c1, Block.para c2]) {}).paras.getLast? =
        some { size := some 12, runs := applyAux false false c2.children }) := by
  refine ⟨rfl, applyAux_bold_persists ys i, applyAux_italic_persists ys b, ?_⟩
  intro h2
  rw [renderLoop_docTokens _ _ rfl]
  have hne : c2.children.isEmpty = false := List.isEmpty_eq_false.mpr h2
  simp [docParas, blockParas, plainPara, applyInline, hne]

/-- Witness for C5 at concrete inputs. -/
theorem c5_inline_flags_witness :
    (∀ r ∈ applyAux true false [Inline.text "x"], r.bold = true) ∧
    (∀ r ∈ applyAux false true [Inline.text "x"], r.italic = true) ∧
    (renderLoop (docTokens
        [Block.para ⟨[.strongOpen, .text "p"], "**p"⟩,
         Block.para ⟨[.text "q"], "q"⟩]) {}).paras.getLast? =
      some { size := some 12, runs := applyAux false false [Inline.text "q"] } := by
  obtain ⟨-, h2, h3, h4⟩ := c5_inline_flags [Inline.text "x"] false false
    ⟨[.strongOpen, .text "p"], "**p"⟩ ⟨[.text "q"], "q"⟩
  exact ⟨h2 (by decide), h3 (by decide), h4 (by decide)⟩

/-- C7: the locator scans slides in document order and shapes within a
slide in document order, returning the first shape whose name or —
failing that — alt-text description equals `AI_SUMMARY`; when no shape
matches, rendering fails with the placeholder-not-found error, and when
the matched shape has no text frame it fails with the distinct
not-text-capable error (distinct constructors and distinct messages). -/
theorem c7_placeholder_locator (prs : Prs) (tokens : List MdToken)
    (idx : Nat) (sh : Shape) :
    (find_ai_summary_shape prs = some (idx, sh) →
      idx < prs.slides.length ∧
      (∃ sl, prs.slides[idx]? = some sl ∧ sl.shapes.find? shapeMatches = some sh) ∧
      ∀ j, j < idx → ∀ sl, prs.slides[j]? = some sl →
        sl.shapes.find? shapeMatches = none) ∧
    (∀ s : Shape, shapeMatches s = true ↔
      s.name = "AI_SUMMARY" ∨ s.descr = "AI_SUMMARY") ∧
    ((∀ sl ∈ prs.slides, ∀ s ∈ sl.shapes, shapeMatches s = false) →
      insert_markdown_into_ai_summary prs tokens = .error .placeholderNotFound) ∧
    (find_ai_summary_shape prs = some (idx, sh) → sh.frame = none →
      insert_markdown_into_ai_summary prs tokens = .error .placeholderNotTextCapable) ∧
    (RenderError.placeholderNotFound ≠ RenderError.placeholderNotTextCapable ∧
      RenderError.placeholderNotFound.message ≠
        RenderError.placeholderNotTextCapable.message) := by
  refine ⟨?_, ?_, ?_, ?_, by decide⟩
  · intro h
    obtain ⟨k, hk, hidx, hfound, hbefore⟩ := findShapeAux_some prs.slides 0 idx sh h
    have hik : idx = k := by omega
    subst hik
    exact ⟨hk, hfound, fun j hj sl hsl => hbefore j (by omega) sl hsl⟩
  · intro s
    simp [shapeMatches]
  · intro hno
    have hnone : find_ai_summary_shape prs = none := findShapeAux_none _ _ hno
    simp [insert_markdown_into_ai_summary, hnone]
  · intro hfind hframe
    simp [insert_markdown_into_ai_summary, hfind, hframe]

/-- A two-slide fixture: no match on the first slide, a text-incapable
`AI_SUMMARY` shape on the second. -/
def prsW : Prs := ⟨[⟨[{ name := "title" }]⟩, ⟨[{ name := "AI_SUMMARY" }]⟩]⟩

/-- A fixture with no matching shape at all. -/
def prsNoMatch : Prs := ⟨[⟨[{ name := "title" }]⟩]⟩

/-- Witness for C7 at the concrete fixtures. -/
theorem c7_placeholder_locator_witness :
    insert_markdown_into_ai_summary prsW [] = .error .placeholderNotTextCapable ∧
    insert_markdown_into_ai_summary prsNoMatch [] = .error .placeholderNotFound ∧
    (1 : Nat) < prsW.slides.length := by
  obtain ⟨h1, -, -, h4, -⟩ := c7_placeholder_locator prsW [] 1 { name := "AI_SUMMARY" }
  obtain ⟨-, -, h3, -, -⟩ := c7_placeholder_locator prsNoMatch [] 0 { name := "title" }
  exact ⟨h4 (by decide) rfl, h3 (by decide), (h1 (by decide)).1⟩

/-- C8: every unordered-list item renders as exactly one paragraph whose
first run is the literal bullet marker emitted as its own completely
unstyled run (no bold, no italic, no font, no size), followed by the
item's inline runs — so inline styling never applies to the marker. -/
theorem c8_bullet_marker_unstyled (bs1 bs2 : List Block) (items : List InlineTok) :
    (renderLoop (docTokens (bs1 ++ Block.ulist items :: bs2)) {}).paras =
        docParas bs1 ++ items.map bulletPara ++ docParas bs2 ∧
    ∀ tok ∈ items,
      (bulletPara tok).runs =
        { text := bulletGlyph, bold := false, italic := false,
          fontName := none, size := none } :: applyInline tok := by
  constructor
  · rw [renderLoop_docTokens _ _ rfl, docParas_append_cons]
    rfl
  · intro tok _
    rfl

/-- Witness for C8: a one-item unordered list whose content is entirely
bold still gets an unstyled bullet-marker run. -/
theorem c8_bullet_marker_unstyled_witness :
    (renderLoop (docTokens ([] ++ Block.ulist
        [⟨[.strongOpen, .text "a", .strongClose], "**a**"⟩] :: [])) {}).paras =
      docParas [] ++
        [(⟨[.strongOpen, .text "a", .strongClose], "**a**"⟩ : InlineTok)].map bulletPara ++
        docParas [] ∧
    (bulletPara ⟨[.strongOpen, .text "a", .strongClose], "**a**"⟩).runs =
      { text := bulletGlyph, bold := false, italic := false,
        fontName := none, size := none } ::
        applyInline ⟨[.strongOpen, .text "a", .strongClose], "**a**"⟩ := by
  have h := c8_bullet_marker_unstyled [] []
    [⟨[.strongOpen, .text "a", .strongClose], "**a**"⟩]
  exact ⟨h.1, h.2 _ (by decide)⟩

/-- C2, counterexample.  The claim says **every** Analyze/Approve
failure updates that attempt's Job to terminal `FAILED` before
re-raising, so no failure leaves the Job `RUNNING`.  But Approve on a
file id with no `files` row raises `HTTPException(404)`, which the
`except HTTPException: raise` clause re-raises **before** the generic
handler, so the attempt's Job row stays `RUNNING`. -/
theorem c2_counterexample :
    (approve_and_regenerate emptyDB 0 parse0).2 =
      .error (.http 404 "File not found") ∧
    (approve_and_regenerate emptyDB 0 parse0).1.jobs.map JobRec.status =
      [.running] := by
  constructor <;> rfl

/-- C2 (amended): every failure during Analyze updates that attempt's
Job to `FAILED` with a captured error message before re-raising; during
Approve, every failure **other than** the missing-File / missing-Review
NotFound cases does the same, while those two NotFound failures re-raise
with the attempt's Job left in `RUNNING`. -/
theorem c2_job_failure_recording (db : DB) (fid : Nat)
    (ai : Except String AiSummary) (parse : String → List MdToken) :
    (∀ e, (analyze_file db fid ai).2 = .error e →
      ∃ j, (analyze_file db fid ai).1.jobs.getLast? = some j ∧
        j.id = db.nextId ∧ j.fileId = fid ∧ j.jobType = .analyzeJob ∧
        j.status = .failed ∧ j.error ≠ none) ∧
    (∀ e, (approve_and_regenerate db fid parse).2 = .error e →
      ∃ j, (approve_and_regenerate db fid parse).1.jobs.getLast? = some j ∧
        j.id = db.nextId ∧ j.fileId = fid ∧ j.jobType = .regenerateJob ∧
        (((e = .http 404 "File not found" ∨
            e = .http 404 "No review found for this file") ∧
          j.status = .running) ∨
         ((∀ d, e ≠ .http 404 d) ∧ j.status = .failed ∧ j.error ≠ none))) := by
  constructor
  · intro e he
    simp only [analyze_file] at he ⊢
    obtain ⟨msg, hjobs⟩ := analyzeBody_jobs _ _ _ _ e he
    refine ⟨⟨db.nextId, fid, .analyzeJob, .failed, some msg⟩, ?_, rfl, rfl, rfl, rfl,
      by simp⟩
    rw [hjobs]
    simp [withNewJob, newJobRow, List.getLast?_concat]
  · intro e he
    simp only [approve_and_regenerate] at he ⊢
    rcases approveBody_jobs _ _ _ _ e he with ⟨hcase, hjobs⟩ | ⟨hne, msg, hjobs⟩
    · refine ⟨newJobRow db fid .regenerateJob, ?_, rfl, rfl, rfl, Or.inl ⟨hcase, rfl⟩⟩
      rw [hjobs]
      simp [withNewJob, List.getLast?_concat]
    · refine ⟨⟨db.nextId, fid, .regenerateJob, .failed, some msg⟩, ?_, rfl, rfl, rfl,
        Or.inr ⟨hne, rfl, by simp⟩⟩
      rw [hjobs]
      simp [withNewJob, newJobRow, List.getLast?_concat]

/-- Witness for C2 (amended) on the empty state: the failing Analyze
marks its job `FAILED`; the failing Approve (missing File) leaves its
job `RUNNING`. -/
theorem c2_job_failure_recording_witness :
    (∃ j, (analyze_file emptyDB 0 (Except.error "boom")).1.jobs.getLast? = some j ∧
      j.id = emptyDB.nextId ∧ j.fileId = 0 ∧ j.jobType = .analyzeJob ∧
      j.status = .failed ∧ j.error ≠ none) ∧
    (∃ j, (approve_and_regenerate emptyDB 0 parse0).1.jobs.getLast? = some j ∧
      j.id = emptyDB.nextId ∧ j.fileId = 0 ∧ j.jobType = .regenerateJob ∧
      (((ApiError.http 404 "File not found" = .http 404 "File not found" ∨
          ApiError.http 404 "File not found" =
            .http 404 "No review found for this file") ∧ j.status = .running) ∨
       ((∀ d, ApiError.http 404 "File not found" ≠ .http 404 d) ∧
         j.status = .failed ∧ j.error ≠ none))) := by
  have h := c2_job_failure_recording emptyDB 0 (Except.error "boom") parse0
  exact ⟨h.1 (.http 500 ("Analysis failed: " ++ "404: File not found")) rfl,
    h.2 (.http 404 "File not found") rfl⟩

/-- C3: whenever Approve fails — for any reason — the review table and
the file table (hence the Review's `DRAFT` status and the File's
regenerated pointer) are exactly as before the call; in particular an
Approve for a File with no Review fails with the NotFound 404 and
creates no regenerated pointer; and on success the returned File row
carries a regenerated pointer with the File's review flipped to
`APPROVED`. -/
theorem c3_approve_atomicity (db : DB) (fid : Nat) (parse : String → List MdToken) :
    (∀ e, (approve_and_regenerate db fid parse).2 = .error e →
      (approve_and_regenerate db fid parse).1.reviews = db.reviews ∧
      (approve_and_regenerate db fid parse).1.files = db.files) ∧
    ((∃ f ∈ db.files, f.id = fid) →
      (db.reviews.find? fun r => r.fileId = fid) = none →
      (approve_and_regenerate db fid parse).2 =
        .error (.http 404 "No review found for this file") ∧
      (approve_and_regenerate db fid parse).1.files = db.files) ∧
    (∀ v, (approve_and_regenerate db fid parse).2 = .ok v →
      v.storagePathRegenerated ≠ none ∧
      ∃ r ∈ (approve_and_regenerate db fid parse).1.reviews,
        r.fileId = fid ∧ r.status = .approvedStatus) := by
  refine ⟨?_, ?_, ?_⟩
  · intro e he
    simp only [approve_and_regenerate] at he ⊢
    exact approveBody_error_tables _ _ _ _ e he
  · intro hex hnone
    have hf : ((withNewJob db (newJobRow db fid .regenerateJob)).files.find?
        fun f => f.id = fid).isSome := by
      rw [List.find?_isSome]
      obtain ⟨f, hfm, hfid⟩ := hex
      exact ⟨f, hfm, by simp [hfid]⟩
    have hbody := approveBody_no_review
      (withNewJob db (newJobRow db fid .regenerateJob)) db.nextId fid parse hf hnone
    simp only [approve_and_regenerate, hbody]
    exact ⟨trivial, rfl⟩
  · intro v hv
    simp only [approve_and_regenerate] at hv ⊢
    exact approveBody_ok _ _ _ _ v hv

/-- A state with one file and no review. -/
def dbNoReview : DB :=
  { files := [{ id := 0, storagePathOriginal := "p" }], nextId := 1 }

/-- A state with one file, one draft review and the original blob
present, on which Approve succeeds. -/
def dbOK : DB :=
  { files := [{ id := 0, storagePathOriginal := "p" }],
    reviews := [{ id := 5, fileId := 0, suggestionId := 1,
                  analysisTextFinal := "t", status := .draft }],
    blobs := [("p", .pptxBlob cexPrs)],
    nextId := 10 }

/-- Witness for C3 at the concrete states. -/
theorem c3_approve_atomicity_witness :
    ((approve_and_regenerate dbNoReview 0 parse0).2 =
        .error (.http 404 "No review found for this file") ∧
      (approve_and_regenerate dbNoReview 0 parse0).1.files = dbNoReview.files) ∧
    ((approve_and_regenerate dbNoReview 0 parse0).1.reviews = dbNoReview.reviews ∧
      (approve_and_regenerate dbNoReview 0 parse0).1.files = dbNoReview.files) ∧
    ∃ v, (approve_and_regenerate dbOK 0 parse0).2 = .ok v ∧
      v.storagePathRegenerated ≠ none := by
  have h := c3_approve_atomicity dbNoReview 0 parse0
  have hOK := c3_approve_atomicity dbOK 0 parse0
  have h404 := h.2.1 ⟨{ id := 0, storagePathOriginal := "p" }, by decide, rfl⟩ (by decide)
  have hv : (approve_and_regenerate dbOK 0 parse0).2 =
      .ok { id := 0, storagePathOriginal := "p",
            storagePathRegenerated := some "factsheets/regenerated/0.pptx" } := by
    rfl
  exact ⟨h404, h.1 _ h404.1, ⟨_, hv, (hOK.2.2 _ hv).1⟩⟩

/-- C6: after two sequential Review saves for the same File exactly one
live review row remains for that File, it carries the second save's
text, and it is the same row (same id) the first save produced — an
in-place upsert, not a parallel record; and the 0-or-1-review-per-File
invariant (together with id well-formedness) is preserved by every
operation: save, upload, analyze and approve. -/
theorem c6_review_upsert_invariant (db : DB) (fid : Nat) (req1 req2 : ReviewRequest)
    (cn : Option String) (fn : String) (b1 b2 : Blob) (ai : Except String AiSummary)
    (parse : String → List MdToken) (hwf : ReviewWF db) :
    ((save_review (save_review db fid req1).1 fid req2).1.reviews.filter
        fun r => r.fileId = fid) =
      [(save_review (save_review db fid req1).1 fid req2).2] ∧
    (save_review (save_review db fid req1).1 fid req2).2.analysisTextFinal =
      req2.analysisTextFinal ∧
    (save_review (save_review db fid req1).1 fid req2).2.id =
      (save_review db fid req1).2.id ∧
    ReviewWF (save_review db fid req1).1 ∧
    ReviewWF (save_review (save_review db fid req1).1 fid req2).1 ∧
    ReviewWF (upload_files db cn fn b1 b2).1 ∧
    ReviewWF (analyze_file db fid ai).1 ∧
    ReviewWF (approve_and_regenerate db fid parse).1 := by
  have hwf1 := save_review_wf db fid req1 hwf
  obtain ⟨hA1, hB1, hC1⟩ := hwf1
  obtain ⟨hA, hB, hC⟩ := hwf
  obtain ⟨-, -, -, hfil1, -, -, -, -, -⟩ := save_review_spec db fid req1 hA hB hC
  obtain ⟨-, -, htext2, hfil2, -, -, -, -, hreuse⟩ :=
    save_review_spec (save_review db fid req1).1 fid req2 hA1 hB1 hC1
  refine ⟨hfil2, htext2, ?_, ⟨hA1, hB1, hC1⟩,
    save_review_wf _ fid req2 ⟨hA1, hB1, hC1⟩,
    upload_files_wf db cn fn b1 b2 ⟨hA, hB, hC⟩,
    analyze_file_wf db fid ai ⟨hA, hB, hC⟩,
    approve_wf db fid parse ⟨hA, hB, hC⟩⟩
  exact hreuse _ (find?_of_filter_eq_singleton hfil1)

/-- Witness for C6 on the empty state. -/
theorem c6_review_upsert_invariant_witness :
    ((save_review (save_review emptyDB 0 ⟨1, "first", none⟩).1 0
        ⟨1, "second", none⟩).1.reviews.filter fun r => r.fileId = 0) =
      [(save_review (save_review emptyDB 0 ⟨1, "first", none⟩).1 0
        ⟨1, "second", none⟩).2] ∧
    (save_review (save_review emptyDB 0 ⟨1, "first", none⟩).1 0
        ⟨1, "second", none⟩).2.analysisTextFinal = "second" ∧
    (save_review (save_review emptyDB 0 ⟨1, "first", none⟩).1 0
        ⟨1, "second", none⟩).2.id =
      (save_review emptyDB 0 ⟨1, "first", none⟩).2.id := by
  obtain ⟨h1, h2, h3, -, -, -, -, -⟩ := c6_review_upsert_invariant emptyDB 0
    ⟨1, "first", none⟩ ⟨1, "second", none⟩ none "" (.pdfBlob "") (.pdfBlob "")
    (Except.error "x") parse0 ⟨by simp [emptyDB], by simp [emptyDB],
      fun g => by simp [emptyDB]⟩
  exact ⟨h1, h2, h3⟩

/-- C9: the gateway's polling phase performs at most 20 status polls;
the sleep schedule between polls is exactly the capped-exponential
sequence `min(2^(i div 3), 10)` — nondecreasing, never above the
10-second ceiling, and pinned at the ceiling from poll 12 on; a remote
terminal `FAILED` state at poll `k` is surfaced immediately after `k+1`
polls without exhausting the budget; a never-ready remote yields the
dedicated `ProcessingTimeout` error kind, which is distinct from the
remote-failure error kind. -/
theorem c9_gateway_polling (env : Nat → FileState) :
    pollsUsed env 0 20 ≤ 20 ∧
    (∀ i, backoffDelay i ≤ 10) ∧
    (∀ i j, i ≤ j → backoffDelay i ≤ backoffDelay j) ∧
    (∀ i, 12 ≤ i → backoffDelay i = 10) ∧
    ((pollRun env 0 20).1 =
      (List.range (pollRun env 0 20).1.length).map backoffDelay) ∧
    (∀ k msg, k < 20 → env k = .failedState msg →
      (∀ j, j < k → env j = .processing) →
      uploadPoll env = .error (.processingFailed msg) ∧
        pollsUsed env 0 20 = k + 1) ∧
    ((∀ i, i < 20 → env i = .processing) →
      uploadPoll env = .error .processingTimeout) ∧
    (∀ msg, UploadError.processingTimeout ≠ UploadError.processingFailed msg) := by
  refine ⟨pollsUsed_le_budget env 20 0, backoffDelay_le, backoffDelay_mono,
    backoffDelay_cap, ?_, ?_, ?_, by intro msg h; cases h⟩
  · have := pollRun_sleeps_eq env 20 0
    simpa using this
  · intro k msg hk hf hb
    exact pollRun_failed env msg k 20 0 hk (by simpa using hf)
      (fun j hj => by simpa using hb j hj)
  · intro h
    exact pollRun_timeout env 20 0 (fun j hj => by simpa using h j hj)

/-- A remote that never leaves the processing state. -/
def envProcessing : Nat → FileState := fun _ => .processing

/-- Witness for C9: the never-ready remote hits the timeout error within
the 20-poll budget. -/
theorem c9_gateway_polling_witness :
    uploadPoll envProcessing = .error .processingTimeout ∧
    pollsUsed envProcessing 0 20 ≤ 20 := by
  have h := c9_gateway_polling envProcessing
  exact ⟨h.2.2.2.2.2.2.1 (fun i _ => rfl), h.1⟩

/-- C10: a Review save writes status `DRAFT` unconditionally — also when
the existing review for the File is `APPROVED` — updating that same row
in place (same id) with the new text, and the File keeps exactly one
live review row. -/
theorem c10_save_review_draft (db : DB) (fid : Nat) (req : ReviewRequest)
    (r : ReviewRec) (hwf : ReviewWF db)
    (hfind : (db.reviews.find? fun x => x.fileId = fid) = some r)
    (happ : r.status = .approvedStatus) :
    (save_review db fid req).2.status = .draft ∧
    (save_review db fid req).2.id = r.id ∧
    (save_review db fid req).2.analysisTextFinal = req.analysisTextFinal ∧
    ((save_review db fid req).1.reviews.filter fun x => x.fileId = fid) =
      [(save_review db fid req).2] := by
  obtain ⟨hA, hB, hC⟩ := hwf
  obtain ⟨h1, -, h3, h4, -, -, -, -, h9⟩ := save_review_spec db fid req hA hB hC
  exact ⟨h1, h9 r hfind, h3, h4⟩

/-- A state whose single review is `APPROVED`. -/
def dbApproved : DB :=
  { reviews := [{ id := 0, fileId := 7, suggestionId := 3,
                  analysisTextFinal := "old", status := .approvedStatus }],
    nextId := 1 }

/-- Witness for C10: saving over an `APPROVED` review moves it back to
`DRAFT` in place. -/
theorem c10_save_review_draft_witness :
    (save_review dbApproved 7 ⟨4, "new", none⟩).2.status = .draft ∧
    (save_review dbApproved 7 ⟨4, "new", none⟩).2.id = 0 ∧
    (save_review dbApproved 7 ⟨4, "new", none⟩).2.analysisTextFinal = "new" ∧
    ((save_review dbApproved 7 ⟨4, "new", none⟩).1.reviews.filter
        fun x => x.fileId = 7) = [(save_review dbApproved 7 ⟨4, "new", none⟩).2] := by
  have h := c10_save_review_draft dbApproved 7 ⟨4, "new", none⟩
    { id := 0, fileId := 7, suggestionId := 3, analysisTextFinal := "old",
      status := .approvedStatus }
    ⟨by decide, by decide, fun g => List.length_filter_le _ _⟩ rfl rfl
  exact ⟨h.1, h.2.1, h.2.2.1, h.2.2.2⟩

end Factsheet
